import Mathlib

/-!
Shallow embedding of the shade-api indexer and Merkle read path.

Sources embedded:
- `src/solana/contract.ts` (`fetchMerkleTreeState`, tree account layout offsets),
- `src/indexer/index.ts` (event discriminators, `parseCommitmentData`,
  `parseSplCommitmentData`, mint lookup tables, `processLogLines`, `indexLogs`),
- `src/lib/validators.ts` (`sanitizeToken`, `isValidToken`),
- `src/lib/cache.ts` (`createCache`),
- `src/routes/merkle.ts` (`getPathForLeafIndex`, the `/merkle/root` and
  `/merkle/path` handlers, per-network mint tables).

Conventions: a byte image is a `List Nat` (each entry a byte value); JS numbers
read out of buffers are modelled as `Nat` (the decoders only produce
non-negative integers); fallible decoding returns `Option`/explicit result
inductives; the Supabase `commitments` table is a `List Row` in insertion
order, and the upsert used by the indexer is embedded with its
`onConflict: 'commitment', ignoreDuplicates: true` semantics.
-/

namespace ShadeApi

/-! ## Byte-buffer primitives (Node `Buffer` reads used by the decoders) -/

abbrev Bytes := List Nat

/-- Byte at offset `i`; the decoders only read inside length-checked regions. -/
def byteAt (data : Bytes) (i : Nat) : Nat := data.getD i 0

/-- Little-endian read of `n` bytes starting at `off`. -/
def readLE (data : Bytes) : Nat → Nat → Nat
  | _, 0 => 0
  | off, n + 1 => byteAt data off + 256 * readLE data (off + 1) n

/-- Buffer.readBigUInt64LE (the result is used as a plain number). -/
def readBigUInt64LE (data : Bytes) (off : Nat) : Nat := readLE data off 8

/-- Buffer.readUInt32LE. -/
def readUInt32LE (data : Bytes) (off : Nat) : Nat := readLE data off 4

/-- JS `buffer.slice(a, b)`: the bytes at offsets `a ≤ i < b`. -/
def jsSlice (data : Bytes) (a b : Nat) : Bytes := (data.drop a).take (b - a)

/-- Big-endian interpretation of a byte list as an unsigned integer. -/
def beBytesToNat (bytes : Bytes) : Nat := bytes.foldl (fun acc b => acc * 256 + b) 0

/-! ## Account State Decoder (`src/solana/contract.ts`) -/

def TREE_DISCRIMINATOR : Nat := 8
def TREE_AUTHORITY_LEN : Nat := 32
def TREE_NEXT_INDEX_LEN : Nat := 8
def TREE_SUBTREES_LEN : Nat := 26 * 32
def TREE_ROOT_LEN : Nat := 32
def TREE_ROOT_HISTORY_LEN : Nat := 100 * 32

def TREE_NEXT_INDEX_OFF : Nat := TREE_DISCRIMINATOR + TREE_AUTHORITY_LEN
def TREE_SUBTREES_OFF : Nat := TREE_NEXT_INDEX_OFF + TREE_NEXT_INDEX_LEN
def TREE_ROOT_OFF : Nat := TREE_SUBTREES_OFF + TREE_SUBTREES_LEN
def TREE_ROOT_HISTORY_OFF : Nat := TREE_ROOT_OFF + TREE_ROOT_LEN
def TREE_ROOT_INDEX_OFF : Nat := TREE_ROOT_HISTORY_OFF + TREE_ROOT_HISTORY_LEN

/-- bytes32ToDecimalString: 32 bytes as a big-endian integer, rendered in decimal. -/
def bytes32ToDecimalString (buf : Bytes) : String := toString (beBytesToNat buf)

structure MerkleTreeState where
  root : String
  nextIndex : Nat
  subtrees : List String
deriving DecidableEq, Repr

/-- Outcome of `fetchMerkleTreeState`: the account may be absent (`null` in the
source), the image may be too small (the source throws
`'Merkle tree account too small'`), or decoding succeeds. -/
inductive FetchResult where
  | accountAbsent
  | structuralError
  | ok (state : MerkleTreeState)
deriving DecidableEq, Repr

/-- fetchMerkleTreeState on the fetched account image (`none` models a missing
account, for which the source returns `null` before any length check). -/
def fetchMerkleTreeState (account : Option Bytes) : FetchResult :=
  match account with
  | none => .accountAbsent
  | some data =>
    if data.length < TREE_ROOT_INDEX_OFF + 8 then .structuralError
    else
      let nextIndex := readBigUInt64LE data TREE_NEXT_INDEX_OFF
      let rootIndex := readBigUInt64LE data TREE_ROOT_INDEX_OFF % 100
      let rootHistoryOff := TREE_ROOT_HISTORY_OFF + rootIndex * 32
      let rootStr := bytes32ToDecimalString (jsSlice data rootHistoryOff (rootHistoryOff + 32))
      let subtrees := (List.range 26).map fun i =>
        bytes32ToDecimalString (jsSlice data (TREE_SUBTREES_OFF + i * 32) (TREE_SUBTREES_OFF + i * 32 + 32))
      .ok { root := rootStr, nextIndex := nextIndex, subtrees := subtrees }

/-! ## Event Decoder (`src/indexer/index.ts`) -/

/-- Hex digit character, used by Node `buffer.toString('hex')`. -/
def hexChar (n : Nat) : Char := "0123456789abcdef".data.getD n '0'

/-- Node `buffer.toString('hex')`: two lowercase hex digits per byte. -/
def bytesToHex (bs : Bytes) : String :=
  String.mk (bs.flatMap fun b => [hexChar (b / 16), hexChar (b % 16)])

def BASE58_ALPHABET : List Char :=
  "123456789ABCDEFGHJKLMNPQRSTUVWXYZabcdefghijkmnopqrstuvwxyz".data

/-- Base-58 digits of `n`, most significant first. The first argument is fuel;
`natToBase58` passes `n` itself, which bounds the digit count since each
step divides by 58. -/
def natToBase58Aux : Nat → Nat → List Char
  | 0, _ => []
  | _ + 1, 0 => []
  | fuel + 1, n + 1 =>
    natToBase58Aux fuel ((n + 1) / 58) ++ [BASE58_ALPHABET.getD ((n + 1) % 58) '1']

def natToBase58 (n : Nat) : List Char := natToBase58Aux n n

/-- Base-58 rendering of a byte array (leading zero bytes become '1'), as used
by `new PublicKey(bytes).toString()` for the 32-byte mint identifier. -/
def base58Encode (bytes : Bytes) : String :=
  String.mk (List.replicate (bytes.takeWhile (· == 0)).length '1' ++
    natToBase58 (beBytesToNat bytes))

/-- Anchor event discriminator for `CommitmentData`: the first 8 bytes of
`sha256("event:CommitmentData")`, computed once at startup by
`eventDiscriminator` and treated as an immutable constant. -/
def DISCRIMINATOR_COMMITMENT : Bytes := [13, 110, 215, 127, 244, 62, 234, 34]

/-- Anchor event discriminator for `SplCommitmentData`: the first 8 bytes of
`sha256("event:SplCommitmentData")`. -/
def DISCRIMINATOR_SPL_COMMITMENT : Bytes := [236, 10, 189, 217, 173, 102, 131, 85]

/-- commitmentToDecimal: 32 commitment bytes as a big-endian integer rendered
in decimal; a buffer of any other length renders as "0". -/
def commitmentToDecimal (commitment : Bytes) : String :=
  if commitment.length ≠ 32 then "0" else toString (beBytesToNat commitment)

structure ParsedCommitmentData where
  index : Nat
  commitment : String
  encryptedOutput : String
deriving DecidableEq, Repr

structure ParsedSplCommitmentData where
  index : Nat
  mintAddress : String
  commitment : String
  encryptedOutput : String
deriving DecidableEq, Repr

/-- parseCommitmentData. Layout after the 8-byte discriminator:
index(8 LE) + commitment(32) + encLen(4 LE) + encrypted output. -/
def parseCommitmentData (data : Bytes) : Option ParsedCommitmentData :=
  let minLen := 8 + 8 + 32 + 4
  if data.length < minLen then none
  else
    let index := readBigUInt64LE data 8
    let commitmentBytes := jsSlice data 16 48
    let encLen := readUInt32LE data 48
    if data.length < 52 + encLen then none
    else some { index := index, commitment := commitmentToDecimal commitmentBytes,
                encryptedOutput := bytesToHex (jsSlice data 52 (52 + encLen)) }

/-- parseSplCommitmentData. Layout after the 8-byte discriminator:
index(8 LE) + mint(32) + commitment(32) + encLen(4 LE) + encrypted output. -/
def parseSplCommitmentData (data : Bytes) : Option ParsedSplCommitmentData :=
  let minLen := 8 + 8 + 32 + 32 + 4
  if data.length < minLen then none
  else
    let index := readBigUInt64LE data 8
    let mintBytes := jsSlice data 16 48
    let commitmentBytes := jsSlice data 48 80
    let encLen := readUInt32LE data 80
    if data.length < 84 + encLen then none
    else some { index := index, mintAddress := base58Encode mintBytes,
                commitment := commitmentToDecimal commitmentBytes,
                encryptedOutput := bytesToHex (jsSlice data 84 (84 + encLen)) }

def SOL_MINT : String := "So11111111111111111111111111111111111111112"

def MAINNET_MINT_TO_TOKEN : List (String × String) :=
  [("11111111111111111111111111111112", "sol"),
   (SOL_MINT, "sol"),
   ("EPjFWdd5AufqSSqeM2qN1xzybapC8G4wEGGkZwyTDt1v", "usdc"),
   ("USD1ttGY1N17NEEHLmELoaybftRBUSErhqYiQzvEmuB", "yesa")]

def DEVNET_MINT_TO_TOKEN : List (String × String) :=
  [("11111111111111111111111111111112", "sol"),
   (SOL_MINT, "sol"),
   ("DWvrXGqTYq1SW9ey857z1nXBxSxihwxdFyQfaRunsAXa", "usdc"),
   ("EwtK6Bydxsm4vAvvMiEG3ymtkJ7WToRpQdeV45wB1Qpa", "yesa"),
   ("GykHjnHqwNsFmyY2wFT1drprpm1SZWR69CKPMUSFZBvH", "yesa")]

def MAINNET_TOKEN_TO_MINT : List (String × String) :=
  [("sol", SOL_MINT),
   ("usdc", "EPjFWdd5AufqSSqeM2qN1xzybapC8G4wEGGkZwyTDt1v"),
   ("yesa", "USD1ttGY1N17NEEHLmELoaybftRBUSErhqYiQzvEmuB")]

def DEVNET_TOKEN_TO_MINT : List (String × String) :=
  [("sol", SOL_MINT),
   ("usdc", "DWvrXGqTYq1SW9ey857z1nXBxSxihwxdFyQfaRunsAXa"),
   ("yesa", "EwtK6Bydxsm4vAvvMiEG3ymtkJ7WToRpQdeV45wB1Qpa")]

/-- MINT_TO_TOKEN, selected by `config.isDevnet`. -/
def MINT_TO_TOKEN (isDevnet : Bool) : List (String × String) :=
  if isDevnet then DEVNET_MINT_TO_TOKEN else MAINNET_MINT_TO_TOKEN

/-- TOKEN_TO_MINT, selected by `config.isDevnet`. -/
def TOKEN_TO_MINT (isDevnet : Bool) : List (String × String) :=
  if isDevnet then DEVNET_TOKEN_TO_MINT else MAINNET_TOKEN_TO_MINT

/-- One log line as seen by `processLogLines`. The source extracts the text
after a `Program data: ` marker and base64-decodes it; `noise` stands for a
line with no such marker (or an undecodable payload), `programData` carries
the decoded payload bytes. -/
inductive LogLine where
  | noise
  | programData (payload : Bytes)
deriving DecidableEq, Repr

/-- A row of the `commitments` table, as produced by `processLogLines`. -/
structure Row where
  token : String
  commitment_index : Nat
  commitment : String
  encrypted_output : String
  mint_address : Option String
  transaction_signature : String
deriving DecidableEq, Repr

/-- The two parsed event variants (matched by discriminator, per the source's
tagged union of `parseCommitmentData`/`parseSplCommitmentData` results). -/
inductive ParsedEvent where
  | base (p : ParsedCommitmentData)
  | spl (p : ParsedSplCommitmentData)
deriving DecidableEq, Repr

def ParsedEvent.index : ParsedEvent → Nat
  | .base p => p.index
  | .spl p => p.index

def ParsedEvent.commitment : ParsedEvent → String
  | .base p => p.commitment
  | .spl p => p.commitment

def ParsedEvent.encryptedOutput : ParsedEvent → String
  | .base p => p.encryptedOutput
  | .spl p => p.encryptedOutput

/-- JS `'mintAddress' in parsed`: the mint identifier of an SPL record. -/
def ParsedEvent.mintAddress? : ParsedEvent → Option String
  | .base _ => none
  | .spl p => some p.mintAddress

/-- Discriminator dispatch of the `processLogLines` loop: compare the first 8
payload bytes against the two known discriminators and parse the matched
layout; any other payload decodes to nothing. -/
def decodeLogPayload (data : Bytes) : Option ParsedEvent :=
  let disc := data.take 8
  if disc = DISCRIMINATOR_COMMITMENT then (parseCommitmentData data).map .base
  else if disc = DISCRIMINATOR_SPL_COMMITMENT then (parseSplCommitmentData data).map .spl
  else none

/-- Token classification of a parsed event: an SPL record resolves its mint
through `MINT_TO_TOKEN` with base-asset fallback, a base record is 'sol'. -/
def eventToken (isDevnet : Bool) (p : ParsedEvent) : String :=
  match p.mintAddress? with
  | some m => (List.lookup m (MINT_TO_TOKEN isDevnet)).getD "sol"
  | none => "sol"

/-- The row pushed for one parsed event (`mint_address` is always populated
from `TOKEN_TO_MINT` with the wrapped-SOL mint as fallback). -/
def eventRow (isDevnet : Bool) (transactionSignature : String) (p : ParsedEvent) : Row :=
  { token := eventToken isDevnet p, commitment_index := p.index,
    commitment := p.commitment, encrypted_output := p.encryptedOutput,
    mint_address := some ((List.lookup (eventToken isDevnet p) (TOKEN_TO_MINT isDevnet)).getD SOL_MINT),
    transaction_signature := transactionSignature }

/-- Body of the `processLogLines` loop for one log line. -/
def processLogLine (isDevnet : Bool) (transactionSignature : String) :
    LogLine → List Row
  | .noise => []
  | .programData data =>
    if data.length < 8 then []
    else
      match decodeLogPayload data with
      | none => []
      | some p => [eventRow isDevnet transactionSignature p]

/-- processLogLines: decode a transaction's log lines into table rows. -/
def processLogLines (isDevnet : Bool) (logLines : List LogLine)
    (transactionSignature : String) : List Row :=
  (logLines.map (processLogLine isDevnet transactionSignature)).flatten

/-! ## Persistence (`indexLogs` upsert into the `commitments` table) -/

/-- Whether the table already holds a row with this (globally unique)
commitment value. -/
def commitmentExists (db : List Row) (c : String) : Bool :=
  db.any fun r => r.commitment == c

/-- Supabase `upsert(rows, { onConflict: 'commitment', ignoreDuplicates: true })`:
each row is appended unless a row with the same commitment already exists
(also counting rows appended earlier in the same batch). -/
def upsertIgnoreDuplicates (db : List Row) (rows : List Row) : List Row :=
  rows.foldl (fun acc r => if commitmentExists acc r.commitment then acc else acc ++ [r]) db

/-- indexLogs: decode the log lines and persist the rows via the idempotent
upsert (an empty decode is a no-op, as in the source's early return). -/
def indexLogs (isDevnet : Bool) (db : List Row) (logLines : List LogLine)
    (transactionSignature : String) : List Row :=
  upsertIgnoreDuplicates db (processLogLines isDevnet logLines transactionSignature)

/-! ## Validators (`src/lib/validators.ts`) -/

/-- ASCII lowercasing of one character (the behaviour of JS `toLowerCase` on
the ASCII range, which is all the allow-list comparison can match). -/
def charToLower (c : Char) : Char :=
  if 65 ≤ c.toNat ∧ c.toNat ≤ 90 then Char.ofNat (c.toNat + 32) else c

def strToLower (s : String) : String := String.mk (s.data.map charToLower)

def ALLOWED_TOKENS : List String := ["sol", "usdc", "usdt", "yesa", "zec", "ore", "store"]

/-- isValidToken: a string whose lowercase form is in the allow-list. `none`
models a missing or non-string query value. -/
def isValidToken : Option String → Bool
  | none => false
  | some t => ALLOWED_TOKENS.contains (strToLower t)

/-- sanitizeToken: an invalid token is silently replaced by 'sol'; a valid
one is lowercased. -/
def sanitizeToken (token : Option String) : String :=
  match token with
  | none => "sol"
  | some t => if isValidToken (some t) then strToLower t else "sol"

/-! ## TTL cache (`src/lib/cache.ts`) -/

structure CacheEntry (A : Type) where
  value : A
  expires : Nat
deriving DecidableEq, Repr

structure Cache (A : Type) where
  ttlMs : Nat
  store : List (String × CacheEntry A)
deriving DecidableEq, Repr

/-- Cache `get` at time `now`: a stored entry is returned unless
`now > expires`. The source also deletes an expired entry on get; since a
later get would miss it anyway, the embedding keeps `get` read-only. -/
def cacheGet {A : Type} (c : Cache A) (key : String) (now : Nat) : Option A :=
  match List.lookup key c.store with
  | none => none
  | some e => if now > e.expires then none else some e.value

/-- Cache `set` at time `now`: the entry expires at `now + ttlMs`. JS
`Map.set` overwrites; since `List.lookup` returns the first match, consing
models the overwrite. -/
def cacheSet {A : Type} (c : Cache A) (key : String) (v : A) (now : Nat) : Cache A :=
  { c with store := (key, ⟨v, now + c.ttlMs⟩) :: c.store }

/-! ## Merkle routes (`src/routes/merkle.ts`) -/

def DEVNET_MINTS : List (String × String) :=
  [("sol", "11111111111111111111111111111112"),
   ("usdc", "DWvrXGqTYq1SW9ey857z1nXBxSxihwxdFyQfaRunsAXa"),
   ("usdt", "EcFc2cMyZxaKBkFK1XooxiyDyCPneLXiMwSJiVY6eTad"),
   ("yesa", "EwtK6Bydxsm4vAvvMiEG3ymtkJ7WToRpQdeV45wB1Qpa"),
   ("zec", "Vu3Lcx3chdCHmy9KCCdd19DdJsLejHAZxm1E1bTgE16"),
   ("ore", "6zxkY8UygHKBf64LJDXnzcYr9wdvyqScmj7oGPBFw58Z"),
   ("store", "5MvqBFU5zeHaEfRuAFW2RhqidHLb7Ejsa6sUwPQQXcj1")]

def MAINNET_MINTS : List (String × String) :=
  [("sol", "11111111111111111111111111111112"),
   ("usdc", "EPjFWdd5AufqSSqeM2qN1xzybapC8G4wEGGkZwyTDt1v"),
   ("usdt", "Es9vMFrzaCERmJfrF4H2FYD4KCoNkY11McCe8BenwNYB"),
   ("yesa", "USD1ttGY1N17NEEHLmELoaybftRBUSErhqYiQzvEmuB"),
   ("zec", "A7bdiYdS5GjqGFtxf17ppRHtDKPkkRqbKtR27dxvQXaS"),
   ("ore", "oreoU2P8bN6jkk3jbaiVxYnG1dCXcYxwhwyK9jSybcp"),
   ("store", "sTorERYB6xAZ1SSbwpK3zoK2EEwbBrc7TZAzg1uCGiH")]

def MINT_BY_TOKEN (isDevnet : Bool) : List (String × String) :=
  if isDevnet then DEVNET_MINTS else MAINNET_MINTS

/-- getMintFromToken: `undefined` for a missing token or 'sol', otherwise the
token's mint address (all allow-list tokens have an entry). -/
def getMintFromToken (isDevnet : Bool) (token : Option String) : Option String :=
  match token with
  | none => none
  | some t => if t = "sol" then none else List.lookup t (MINT_BY_TOKEN isDevnet)

def MERKLE_DEPTH : Nat := 26

/-- First loop of `getPathForLeafIndex`: the sibling indices (`index ^ 1`) for
the given number of levels, halving the running index between levels. -/
def buildSiblingIndices : Nat → Nat → List Nat
  | 0, _ => []
  | n + 1, index => (index ^^^ 1) :: buildSiblingIndices n (index / 2)

/-- Lookup in the `byIndex` map built from the single batched sibling query:
rows of the token whose `commitment_index` is among the sibling indices,
later rows overwriting earlier ones (JS `Map.set`), hence the last match. -/
def byIndexGet (db : List Row) (token : String) (sibs : List Nat) (i : Nat) :
    Option String :=
  ((db.filter fun r => r.token == token && sibs.contains r.commitment_index).reverse.find?
    fun r => r.commitment_index == i).map (·.commitment)

/-- Second loop of `getPathForLeafIndex`: per level, push the position bit
`index % 2` and the sibling value (the zero placeholder "0" when the sibling
index has no indexed row), then halve the index. -/
def buildPathLoop (byIndex : Nat → Option String) : Nat → Nat → List String × List Nat
  | 0, _ => ([], [])
  | n + 1, index =>
    let rest := buildPathLoop byIndex n (index / 2)
    ((byIndex (index ^^^ 1)).getD "0" :: rest.1, index % 2 :: rest.2)

/-- getPathForLeafIndex: `(pathElements, pathIndices)` for a leaf. -/
def getPathForLeafIndex (db : List Row) (token : String) (leafIndex : Nat) :
    List String × List Nat :=
  let siblingIndices := buildSiblingIndices MERKLE_DEPTH leafIndex
  buildPathLoop (byIndexGet db token siblingIndices) MERKLE_DEPTH leafIndex

/-- The commitment indexed for `(token, i)`, taking the last matching row as
the JS `Map` construction does. Used to state what the sibling lookup
resolves to, independently of the batched-query filter. -/
def tokenCommitmentAt (db : List Row) (token : String) (i : Nat) : Option String :=
  ((db.filter fun r => r.token == token).reverse.find?
    fun r => r.commitment_index == i).map (·.commitment)

/-- Insertion step of the ascending-by-index sort. -/
def insertByIndex (x : Nat × String) : List (Nat × String) → List (Nat × String)
  | [] => [x]
  | y :: ys => if x.1 ≤ y.1 then x :: y :: ys else y :: insertByIndex x ys

/-- Stable ascending sort on the commitment index, modelling the query's
`ORDER BY commitment_index ASC`. -/
def orderByIndexAsc : List (Nat × String) → List (Nat × String)
  | [] => []
  | x :: xs => insertByIndex x (orderByIndexAsc xs)

/-- The `/merkle/path` DB query: `(commitment_index, commitment)` pairs of the
token, ordered by `commitment_index` ascending. -/
def tokenCommitments (db : List Row) (token : String) : List (Nat × String) :=
  orderByIndexAsc ((db.filter fun r => r.token == token).map fun r =>
    (r.commitment_index, r.commitment))

/-- Response of the `/merkle/root` handler (`serverError` is the catch-all
500 for a thrown decode error). -/
inductive RootResponse where
  | ok (data : MerkleTreeState)
  | treeNotInitialized
  | serverError
deriving DecidableEq, Repr

/-- The `/merkle/root` handler: consult the TTL cache, else decode the chain
account (the image the chain returns for the token's tree PDA), serve and
cache the result. `now` is `Date.now()`. Returns the response together with
the updated cache. -/
def merkleRootHandler (isDevnet : Bool) (cache : Cache MerkleTreeState)
    (account : Option Bytes) (tokenQuery : Option String) (now : Nat) :
    RootResponse × Cache MerkleTreeState :=
  let token := sanitizeToken tokenQuery
  let cacheKey := "root:" ++ token
  match cacheGet cache cacheKey now with
  | some data => (.ok data, cache)
  | none =>
    match fetchMerkleTreeState account with
    | .accountAbsent =>
      match getMintFromToken isDevnet (some token) with
      | some _ => (.treeNotInitialized, cache)
      | none =>
        let d : MerkleTreeState := ⟨"0", 0, []⟩
        (.ok d, cacheSet cache cacheKey d now)
    | .structuralError => (.serverError, cache)
    | .ok st => (.ok st, cacheSet cache cacheKey st now)

/-- Response of the `/merkle/path` handler. -/
inductive PathResponse where
  | badRequest
  | treeNotInitialized
  | leafNotFound
  | ok (root : String) (nextIndex : Nat) (commitments : List (Nat × String))
  | serverError
deriving DecidableEq, Repr

/-- The `/merkle/path` handler: validate the leaf index (`none` models a
missing or non-integer query value), decode the tree account, report a leaf
with no indexed commitment as `leafNotFound`, and otherwise answer with the
root, next index and the token's full ordered commitment list. The token's
mint (network-dependent in the source) only selects which chain account is
fetched, which the `account` argument already carries. -/
def merklePathHandler (db : List Row) (account : Option Bytes)
    (tokenQuery : Option String) (leafIndexQuery : Option Int) : PathResponse :=
  let token := sanitizeToken tokenQuery
  match leafIndexQuery with
  | none => .badRequest
  | some li =>
    if li < 0 ∨ (2 ^ MERKLE_DEPTH : Int) ≤ li then .badRequest
    else
      match fetchMerkleTreeState account with
      | .accountAbsent => .treeNotInitialized
      | .structuralError => .serverError
      | .ok st =>
        let leafIndex := li.toNat
        let commitments := tokenCommitments db token
        if commitments.any fun c => c.1 == leafIndex then
          .ok st.root st.nextIndex commitments
        else .leafNotFound

/-! ## Concrete data used by witnesses and counterexamples -/

/-- Synthetic 4120-byte account image: rolling pointer 137 at offset 4112, and
the last byte of ring slot 37 (offset 912 + 37*32 + 31) set to 5. -/
def ringWitnessImage : Bytes :=
  ((List.replicate 4120 0).set TREE_ROOT_INDEX_OFF 137).set
    (TREE_ROOT_HISTORY_OFF + 37 * 32 + 31) 5

/-- All-zero minimal account image: decodes to root "0", nextIndex 0 and 26
zero subtrees. -/
def zeroTreeImage : Bytes := List.replicate 4120 0

/-- Base-asset event payload: index 1, commitment bytes ending in 9 (decimal
"9"), empty ciphertext. -/
def baseEventPayload : Bytes :=
  DISCRIMINATOR_COMMITMENT ++ [1, 0, 0, 0, 0, 0, 0, 0] ++
    (List.replicate 31 0 ++ [9]) ++ [0, 0, 0, 0]

/-- Payload matching neither discriminator. -/
def unknownDiscPayload : Bytes := List.replicate 8 0

/-- Base-asset discriminator followed by too few bytes for the fixed fields. -/
def shortBasePayload : Bytes := DISCRIMINATOR_COMMITMENT ++ [1, 2, 3]

/-- Base-asset payload whose declared ciphertext length (1) overruns the
52-byte buffer. -/
def overrunBasePayload : Bytes :=
  DISCRIMINATOR_COMMITMENT ++ [1, 0, 0, 0, 0, 0, 0, 0] ++
    List.replicate 32 0 ++ [1, 0, 0, 0]

/-- SPL event payload with an all-zero mint (base58 "1"*32, absent from every
lookup table): index 2, commitment bytes ending in 7, empty ciphertext. -/
def splUnknownMintPayload : Bytes :=
  DISCRIMINATOR_SPL_COMMITMENT ++ [2, 0, 0, 0, 0, 0, 0, 0] ++
    List.replicate 32 0 ++ (List.replicate 31 0 ++ [7]) ++ [0, 0, 0, 0]

/-- Index contents for the path-builder example: token `sol` holds
commitments only at leaf indices 0, 1, 2. -/
def pathExampleDb : List Row :=
  [⟨"sol", 0, "11", "aa", some SOL_MINT, "sig0"⟩,
   ⟨"sol", 1, "22", "bb", some SOL_MINT, "sig1"⟩,
   ⟨"sol", 2, "33", "cc", some SOL_MINT, "sig2"⟩]

/-- Single-commitment index used against the `/merkle/path` handler. -/
def singleLeafDb : List Row := [⟨"sol", 0, "7", "aa", some SOL_MINT, "sig0"⟩]

/-- Stale cached state (root "1") for the root-cache counterexample. -/
def staleState : MerkleTreeState := ⟨"1", 0, []⟩

/-- Cache with TTL 0 holding `staleState` under `root:sol`, stored at time
100 (hence expiring at 100). -/
def staleCache : Cache MerkleTreeState := ⟨0, [("root:sol", ⟨staleState, 100⟩)]⟩

/-- The row `baseEventPayload` decodes to. -/
def baseEventRow : Row :=
  { token := "sol", commitment_index := 1, commitment := "9",
    encrypted_output := "", mint_address := some SOL_MINT,
    transaction_signature := "sig" }

/-- Empty TTL-0 cache. -/
def emptyRootCache : Cache MerkleTreeState := ⟨0, []⟩

/-- The state `zeroTreeImage` decodes to. -/
def zeroState : MerkleTreeState := ⟨"0", 0, List.replicate 26 "0"⟩

/-- Base-asset event payload used for the idempotence witness: index 3,
commitment bytes ending in 8 (decimal "8"), empty ciphertext. -/
def idempotenceEventPayload : Bytes :=
  DISCRIMINATOR_COMMITMENT ++ [3, 0, 0, 0, 0, 0, 0, 0] ++
    (List.replicate 31 0 ++ [8]) ++ [0, 0, 0, 0]

/-! ## Theorems for the Account State Decoder claims -/

/-- C1: for every tree-state account image large enough to decode, the decoder
returns as Merkle root the decimal rendering of the 32-byte entry of the
100-slot root-history ring buffer at slot `pointer mod 100` (offset
`TREE_ROOT_HISTORY_OFF + (pointer % 100) * 32`, not the single current-root
slot at `TREE_ROOT_OFF`); in particular a rolling pointer of 137 selects ring
slot 37. -/
theorem fetchMerkleTreeState_root_from_ring_slot (data : Bytes)
    (h : TREE_ROOT_INDEX_OFF + 8 ≤ data.length) :
    ∃ st : MerkleTreeState,
      fetchMerkleTreeState (some data) = .ok st ∧
      st.root = bytes32ToDecimalString (jsSlice data
        (TREE_ROOT_HISTORY_OFF + readBigUInt64LE data TREE_ROOT_INDEX_OFF % 100 * 32)
        (TREE_ROOT_HISTORY_OFF + readBigUInt64LE data TREE_ROOT_INDEX_OFF % 100 * 32 + 32)) ∧
      (readBigUInt64LE data TREE_ROOT_INDEX_OFF = 137 →
        st.root = bytes32ToDecimalString (jsSlice data
          (TREE_ROOT_HISTORY_OFF + 37 * 32) (TREE_ROOT_HISTORY_OFF + 37 * 32 + 32))) := by
  have hlt : ¬ data.length < TREE_ROOT_INDEX_OFF + 8 := Nat.not_lt.mpr h
  refine ⟨⟨bytes32ToDecimalString (jsSlice data
      (TREE_ROOT_HISTORY_OFF + readBigUInt64LE data TREE_ROOT_INDEX_OFF % 100 * 32)
      (TREE_ROOT_HISTORY_OFF + readBigUInt64LE data TREE_ROOT_INDEX_OFF % 100 * 32 + 32)),
    readBigUInt64LE data TREE_NEXT_INDEX_OFF,
    (List.range 26).map fun i => bytes32ToDecimalString
      (jsSlice data (TREE_SUBTREES_OFF + i * 32) (TREE_SUBTREES_OFF + i * 32 + 32))⟩,
    ?_, rfl, fun h137 => ?_⟩
  · simp only [fetchMerkleTreeState, if_neg hlt]
  · simp only [h137]

theorem fetchMerkleTreeState_root_from_ring_slot_witness :
    ∃ st : MerkleTreeState,
      fetchMerkleTreeState (some ringWitnessImage) = .ok st ∧
      st.root = bytes32ToDecimalString (jsSlice ringWitnessImage
        (TREE_ROOT_HISTORY_OFF + readBigUInt64LE ringWitnessImage TREE_ROOT_INDEX_OFF % 100 * 32)
        (TREE_ROOT_HISTORY_OFF + readBigUInt64LE ringWitnessImage TREE_ROOT_INDEX_OFF % 100 * 32 + 32)) ∧
      (readBigUInt64LE ringWitnessImage TREE_ROOT_INDEX_OFF = 137 →
        st.root = bytes32ToDecimalString (jsSlice ringWitnessImage
          (TREE_ROOT_HISTORY_OFF + 37 * 32) (TREE_ROOT_HISTORY_OFF + 37 * 32 + 32))) :=
  fetchMerkleTreeState_root_from_ring_slot ringWitnessImage
    (by
      have hl : ringWitnessImage.length = 4120 := by
        simp only [ringWitnessImage, List.length_set, List.length_replicate]
      rw [hl]
      norm_num [TREE_ROOT_INDEX_OFF, TREE_ROOT_HISTORY_OFF, TREE_ROOT_OFF,
        TREE_SUBTREES_OFF, TREE_NEXT_INDEX_OFF, TREE_DISCRIMINATOR,
        TREE_AUTHORITY_LEN, TREE_NEXT_INDEX_LEN, TREE_SUBTREES_LEN,
        TREE_ROOT_LEN, TREE_ROOT_HISTORY_LEN])

/-- C5: a nonexistent tree-state account decodes to the distinct
`accountAbsent` outcome (never the structural error, never a decoded state),
while an existing image shorter than the minimum layout size decodes to the
structural error, which is distinct from `accountAbsent`. -/
theorem fetchMerkleTreeState_absent_vs_structural :
    fetchMerkleTreeState none = .accountAbsent ∧
    (∀ data : Bytes, data.length < TREE_ROOT_INDEX_OFF + 8 →
      fetchMerkleTreeState (some data) = .structuralError) ∧
    FetchResult.accountAbsent ≠ FetchResult.structuralError ∧
    (∀ st : MerkleTreeState, FetchResult.accountAbsent ≠ FetchResult.ok st) := by
  refine ⟨rfl, fun data h => ?_, by decide, fun st h => by cases h⟩
  simp only [fetchMerkleTreeState, if_pos h]

theorem fetchMerkleTreeState_absent_vs_structural_witness :
    fetchMerkleTreeState none = .accountAbsent ∧
    fetchMerkleTreeState (some []) = .structuralError :=
  ⟨fetchMerkleTreeState_absent_vs_structural.1,
   fetchMerkleTreeState_absent_vs_structural.2.1 [] (by decide)⟩

/-! ## Theorems for the validators and the Event Decoder claims -/

/-- C10: every token value whose lowercase form is outside the fixed
allow-list — including a missing or non-string value — is silently replaced
by 'sol'; the sanitized token is always a (lowercase) member of the
allow-list, and an invalid token query makes the root handler behave exactly
as a query for 'sol'. -/
theorem sanitizeToken_allowlist :
    (∀ t : Option String, sanitizeToken t ∈ ALLOWED_TOKENS) ∧
    (∀ t : Option String, isValidToken t = false → sanitizeToken t = "sol") ∧
    sanitizeToken none = "sol" ∧
    (∀ t : Option String, strToLower (sanitizeToken t) = sanitizeToken t) ∧
    (∀ (dev : Bool) (cache : Cache MerkleTreeState) (account : Option Bytes)
      (t : Option String) (now : Nat), isValidToken t = false →
      merkleRootHandler dev cache account t now =
        merkleRootHandler dev cache account (some "sol") now) := by
  have hmem : ∀ t : Option String, sanitizeToken t ∈ ALLOWED_TOKENS := by
    intro t
    match t with
    | none => simp [sanitizeToken, ALLOWED_TOKENS]
    | some s =>
      rw [sanitizeToken]
      by_cases h : isValidToken (some s)
      · rw [if_pos h]
        rw [isValidToken] at h
        simpa using h
      · simp [if_neg h, ALLOWED_TOKENS]
  have hsol : ∀ t : Option String, isValidToken t = false → sanitizeToken t = "sol" := by
    intro t h
    match t with
    | none => rfl
    | some s => simp [sanitizeToken, h]
  have hlowmem : ∀ s ∈ ALLOWED_TOKENS, strToLower s = s := by decide
  refine ⟨hmem, hsol, rfl, fun t => hlowmem _ (hmem t), fun dev cache account t now h => ?_⟩
  have h1 : sanitizeToken t = "sol" := hsol t h
  have h2 : sanitizeToken (some "sol") = "sol" := by decide
  simp only [merkleRootHandler, h1, h2]

theorem sanitizeToken_allowlist_witness :
    isValidToken (some "doge") = false ∧ sanitizeToken (some "doge") = "sol" :=
  ⟨by decide, sanitizeToken_allowlist.2.1 (some "doge") (by decide)⟩

/-- If the first 8 bytes of a payload equal an 8-byte discriminator, the
payload is at least 8 bytes long. -/
theorem not_short_of_take8 {data d : Bytes} (h : data.take 8 = d)
    (hd : d.length = 8) : ¬ data.length < 8 := by
  have h1 := congrArg List.length h
  rw [hd] at h1
  simp only [List.length_take] at h1
  omega

/-- C6: a payload matching neither known discriminator produces zero records;
a payload matching the base-asset discriminator but shorter than its fixed
fields, or whose declared ciphertext length overruns the buffer, produces
zero records; and decoding a list of log lines processes each line
independently, so a skipped line never stops the following lines from being
decoded. -/
theorem processLogLine_selectivity :
    (∀ (dev : Bool) (sig : String) (data : Bytes),
      data.take 8 ≠ DISCRIMINATOR_COMMITMENT →
      data.take 8 ≠ DISCRIMINATOR_SPL_COMMITMENT →
      processLogLine dev sig (.programData data) = []) ∧
    (∀ (dev : Bool) (sig : String) (data : Bytes),
      data.take 8 = DISCRIMINATOR_COMMITMENT →
      data.length < 52 ∨ data.length < 52 + readUInt32LE data 48 →
      processLogLine dev sig (.programData data) = []) ∧
    (∀ (dev : Bool) (sig : String) (l : LogLine) (rest : List LogLine),
      processLogLines dev (l :: rest) sig =
        processLogLine dev sig l ++ processLogLines dev rest sig) := by
  refine ⟨fun dev sig data h1 h2 => ?_, fun dev sig data hdisc hshort => ?_,
    fun dev sig l rest => ?_⟩
  · by_cases h8 : data.length < 8
    · simp [processLogLine, h8]
    · simp [processLogLine, h8, decodeLogPayload, h1, h2]
  · have h8 : ¬ data.length < 8 := not_short_of_take8 hdisc (by decide)
    have hparse : parseCommitmentData data = none := by
      rw [parseCommitmentData]
      rcases hshort with hs | hs
      · simp [hs]
      · by_cases h52 : data.length < 8 + 8 + 32 + 4
        · simp [h52]
        · simp only [if_neg h52]
          rw [if_pos]
          omega
    simp [processLogLine, h8, decodeLogPayload, hdisc, hparse]
  · simp [processLogLines]

theorem processLogLine_selectivity_witness :
    processLogLine false "sig" (.programData unknownDiscPayload) = [] ∧
    processLogLine false "sig" (.programData shortBasePayload) = [] ∧
    processLogLine false "sig" (.programData overrunBasePayload) = [] :=
  ⟨processLogLine_selectivity.1 false "sig" unknownDiscPayload (by decide) (by decide),
   processLogLine_selectivity.2.1 false "sig" shortBasePayload (by decide)
     (Or.inl (by decide)),
   processLogLine_selectivity.2.1 false "sig" overrunBasePayload (by decide)
     (Or.inr (by decide))⟩

/-- C9: an SPL (token-asset) event whose mint identifier is absent from the
active network's mint-to-token lookup table decodes to a record classified
under the base-asset symbol 'sol' (with the canonical wrapped-SOL mint
stored), rather than being rejected or erroring. -/
theorem spl_unknown_mint_falls_back_to_sol (dev : Bool) (sig : String)
    (data : Bytes) (p : ParsedSplCommitmentData)
    (hdisc : data.take 8 = DISCRIMINATOR_SPL_COMMITMENT)
    (hp : parseSplCommitmentData data = some p)
    (hmint : List.lookup p.mintAddress (MINT_TO_TOKEN dev) = none) :
    processLogLine dev sig (.programData data) =
      [{ token := "sol", commitment_index := p.index, commitment := p.commitment,
         encrypted_output := p.encryptedOutput, mint_address := some SOL_MINT,
         transaction_signature := sig }] := by
  have h8 : ¬ data.length < 8 := not_short_of_take8 hdisc (by decide)
  have hne : data.take 8 ≠ DISCRIMINATOR_COMMITMENT := by
    rw [hdisc]
    decide
  have htok : eventToken dev (.spl p) = "sol" := by
    simp [eventToken, ParsedEvent.mintAddress?, hmint]
  have hdd : DISCRIMINATOR_SPL_COMMITMENT ≠ DISCRIMINATOR_COMMITMENT := by decide
  cases dev <;>
    simp [processLogLine, h8, decodeLogPayload, hdisc, hne, hp, hdd, eventRow, htok,
      ParsedEvent.index, ParsedEvent.commitment, ParsedEvent.encryptedOutput,
      TOKEN_TO_MINT, DEVNET_TOKEN_TO_MINT, MAINNET_TOKEN_TO_MINT, List.lookup]

theorem spl_unknown_mint_falls_back_to_sol_witness :
    processLogLine false "sig" (.programData splUnknownMintPayload) =
      [{ token := "sol", commitment_index := 2, commitment := "7",
         encrypted_output := "", mint_address := some SOL_MINT,
         transaction_signature := "sig" }] :=
  spl_unknown_mint_falls_back_to_sol false "sig" splUnknownMintPayload
    ⟨2, base58Encode (List.replicate 32 0), "7", ""⟩
    (by decide) (by decide) (by decide)

/-- C8 counterexample: a base-asset event decodes to a row whose
`mint_address` is the canonical wrapped-SOL mint, not null — the indexer
always populates `mint_address` (`TOKEN_TO_MINT[token] ?? SOL_MINT`). -/
theorem base_asset_mint_address_not_null :
    processLogLines false [.programData baseEventPayload] "sig" = [baseEventRow] ∧
    baseEventRow.mint_address = some SOL_MINT ∧
    some SOL_MINT ≠ (none : Option String) := by
  exact ⟨by decide, by decide, by decide⟩

/-- C8 amended: every persisted record carries a non-null `mint_address`; a
record classified under the base-asset symbol stores the canonical
wrapped-SOL mint address (the source comment: always store canonical mints
so `mint_address` is never invalid). -/
theorem processLogLines_mint_address_total (dev : Bool) (lines : List LogLine)
    (sig : String) :
    ∀ r ∈ processLogLines dev lines sig,
      r.mint_address.isSome = true ∧
      (r.token = "sol" → r.mint_address = some SOL_MINT) := by
  intro r hr
  simp only [processLogLines, List.mem_flatten, List.mem_map] at hr
  obtain ⟨s, ⟨l, _, rfl⟩, hrs⟩ := hr
  have hshape : ∃ p, r = eventRow dev sig p := by
    cases l with
    | noise => simp [processLogLine] at hrs
    | programData data =>
      simp only [processLogLine] at hrs
      by_cases h8 : data.length < 8
      · rw [if_pos h8] at hrs
        simp at hrs
      · rw [if_neg h8] at hrs
        cases hdec : decodeLogPayload data with
        | none =>
          rw [hdec] at hrs
          simp at hrs
        | some p =>
          rw [hdec] at hrs
          exact ⟨p, by simpa using hrs⟩
  obtain ⟨p, rfl⟩ := hshape
  refine ⟨rfl, fun htok => ?_⟩
  have htok' : eventToken dev p = "sol" := htok
  simp only [eventRow, htok']
  cases dev <;>
    simp [TOKEN_TO_MINT, DEVNET_TOKEN_TO_MINT, MAINNET_TOKEN_TO_MINT, List.lookup]

theorem processLogLines_mint_address_total_witness :
    baseEventRow.mint_address.isSome = true ∧
    (baseEventRow.token = "sol" → baseEventRow.mint_address = some SOL_MINT) :=
  processLogLines_mint_address_total false [.programData baseEventPayload] "sig"
    baseEventRow (by decide)

/-! ## Idempotence of the decode-and-persist step -/

theorem upsertIgnoreDuplicates_nil (db : List Row) :
    upsertIgnoreDuplicates db [] = db := rfl

theorem upsertIgnoreDuplicates_cons (db : List Row) (r : Row) (rest : List Row) :
    upsertIgnoreDuplicates db (r :: rest) =
      upsertIgnoreDuplicates
        (if commitmentExists db r.commitment then db else db ++ [r]) rest := rfl

/-- A commitment present in the table stays present through an upsert. -/
theorem commitmentExists_upsert_mono (rows : List Row) (db : List Row) (c : String)
    (h : commitmentExists db c = true) :
    commitmentExists (upsertIgnoreDuplicates db rows) c = true := by
  induction rows generalizing db with
  | nil => exact h
  | cons r rest ih =>
    rw [upsertIgnoreDuplicates_cons]
    apply ih
    by_cases hex : commitmentExists db r.commitment
    · rwa [if_pos hex]
    · rw [if_neg hex, commitmentExists, List.any_append]
      rw [commitmentExists] at h
      rw [h]
      rfl

/-- After an upsert, every upserted row's commitment is present. -/
theorem commitmentExists_after_upsert (rows : List Row) (db : List Row) :
    ∀ r ∈ rows, commitmentExists (upsertIgnoreDuplicates db rows) r.commitment = true := by
  induction rows generalizing db with
  | nil => intro r hr; cases hr
  | cons s rest ih =>
    intro r hr
    rw [upsertIgnoreDuplicates_cons]
    rcases List.mem_cons.mp hr with rfl | hr
    · apply commitmentExists_upsert_mono
      by_cases hex : commitmentExists db r.commitment
      · rwa [if_pos hex]
      · rw [if_neg hex, commitmentExists, List.any_append]
        simp [commitmentExists]
    · exact ih _ r hr

/-- Upserting rows whose commitments are all already present is a no-op. -/
theorem upsertIgnoreDuplicates_noop (rows : List Row) (db : List Row)
    (h : ∀ r ∈ rows, commitmentExists db r.commitment = true) :
    upsertIgnoreDuplicates db rows = db := by
  induction rows generalizing db with
  | nil => rfl
  | cons s rest ih =>
    rw [upsertIgnoreDuplicates_cons, if_pos (h s (List.mem_cons_self s rest))]
    exact ih db fun r hr => h r (List.mem_cons_of_mem s hr)

/-- The upsert never brings the number of rows bearing one commitment value
above one (beyond what the table already held). -/
theorem upsertIgnoreDuplicates_countP_le (rows : List Row) (db : List Row) (c : String) :
    (upsertIgnoreDuplicates db rows).countP (fun x => x.commitment == c) ≤
      max (db.countP fun x => x.commitment == c) 1 := by
  induction rows generalizing db with
  | nil => exact le_max_left _ _
  | cons r rest ih =>
    rw [upsertIgnoreDuplicates_cons]
    by_cases hex : commitmentExists db r.commitment
    · rw [if_pos hex]
      exact ih db
    · rw [if_neg hex]
      refine le_trans (ih _) (max_le ?_ (le_max_right _ _))
      rw [List.countP_append]
      by_cases hc : r.commitment == c
      · have hrc : r.commitment = c := eq_of_beq hc
        have h0 : (db.countP fun x => x.commitment == c) = 0 := by
          rw [List.countP_eq_zero]
          intro a ha
          rw [commitmentExists] at hex
          have := (List.any_eq_false ..).mp (Bool.not_eq_true _ ▸ hex) a ha
          rwa [hrc] at this
        simp [h0, List.countP_cons, hc]
      · have : List.countP (fun x => x.commitment == c) [r] = 0 := by
          simp [List.countP_cons, hc]
        rw [this]
        simp [le_max_left]

/-- C2: decoding and persisting the same log lines (same transaction
signature) twice leaves the table exactly as one pass does — the upsert
keyed on the unique commitment with duplicates ignored makes the
decode-and-persist step idempotent; and a decoded record whose commitment is
new to the table ends up indexed in exactly one row. -/
theorem indexLogs_idempotent (dev : Bool) (db : List Row) (lines : List LogLine)
    (sig : String) :
    indexLogs dev (indexLogs dev db lines sig) lines sig = indexLogs dev db lines sig ∧
    ∀ r ∈ processLogLines dev lines sig,
      (db.countP fun x => x.commitment == r.commitment) = 0 →
      ((indexLogs dev db lines sig).countP fun x => x.commitment == r.commitment) = 1 := by
  constructor
  · apply upsertIgnoreDuplicates_noop
    intro r hr
    exact commitmentExists_after_upsert _ db r hr
  · intro r hr h0
    have h1 : commitmentExists (indexLogs dev db lines sig) r.commitment = true :=
      commitmentExists_after_upsert _ db r hr
    rw [commitmentExists, List.any_eq_true] at h1
    obtain ⟨a, ha, hac⟩ := h1
    have hpos : 0 < ((indexLogs dev db lines sig).countP
        fun x => x.commitment == r.commitment) :=
      List.countP_pos_iff.mpr ⟨a, ha, hac⟩
    have hle := upsertIgnoreDuplicates_countP_le
      (processLogLines dev lines sig) db r.commitment
    rw [h0] at hle
    have hle' : ((indexLogs dev db lines sig).countP
        fun x => x.commitment == r.commitment) ≤ 1 := by
      simpa [indexLogs] using hle
    omega

theorem indexLogs_idempotent_witness :
    ((indexLogs false [] [.programData idempotenceEventPayload] "sig").countP
      fun x => x.commitment == "8") = 1 :=
  (indexLogs_idempotent false [] [.programData idempotenceEventPayload] "sig").2
    { token := "sol", commitment_index := 3, commitment := "8",
      encrypted_output := "", mint_address := some SOL_MINT,
      transaction_signature := "sig" }
    (by decide) (by decide)

/-! ## Evaluation lemmas for the all-zero account image -/

theorem byteAt_replicate_zero (n i : Nat) : byteAt (List.replicate n 0) i = 0 := by
  rw [byteAt, List.getD_eq_getElem?_getD]
  rcases h : (List.replicate n (0 : Nat))[i]? with _ | x
  · rfl
  · have hx : x ∈ List.replicate n (0 : Nat) := List.getElem?_mem h
    rw [List.eq_of_mem_replicate hx]
    rfl

theorem readLE_zero (data : Bytes) (h : ∀ i, byteAt data i = 0) (n off : Nat) :
    readLE data off n = 0 := by
  induction n generalizing off with
  | zero => rfl
  | succ n ih =>
    rw [readLE, h, ih]

theorem beBytesToNat_replicate_zero (n : Nat) :
    beBytesToNat (List.replicate n 0) = 0 := by
  induction n with
  | zero => rfl
  | succ n ih =>
    rw [List.replicate_succ]
    simpa [beBytesToNat] using ih

theorem bytes32ToDecimalString_replicate_zero (n : Nat) :
    bytes32ToDecimalString (List.replicate n 0) = "0" := by
  rw [bytes32ToDecimalString, beBytesToNat_replicate_zero]
  rfl

theorem jsSlice_replicate_zero (n a b : Nat) :
    jsSlice (List.replicate n 0) a b = List.replicate (min (b - a) (n - a)) 0 := by
  rw [jsSlice, List.drop_replicate, List.take_replicate]

/-- The all-zero 4120-byte image decodes to the all-zero tree state. -/
theorem fetchMerkleTreeState_zeroImage :
    fetchMerkleTreeState (some zeroTreeImage) = .ok zeroState := by
  have hb := byteAt_replicate_zero 4120
  have h64 : ∀ off, readBigUInt64LE (List.replicate 4120 0) off = 0 := fun off =>
    readLE_zero _ hb 8 off
  have hlen : ¬ (List.replicate 4120 (0 : Nat)).length < TREE_ROOT_INDEX_OFF + 8 := by
    norm_num [List.length_replicate, TREE_ROOT_INDEX_OFF, TREE_ROOT_HISTORY_OFF,
      TREE_ROOT_OFF, TREE_SUBTREES_OFF, TREE_NEXT_INDEX_OFF, TREE_DISCRIMINATOR,
      TREE_AUTHORITY_LEN, TREE_NEXT_INDEX_LEN, TREE_SUBTREES_LEN, TREE_ROOT_LEN,
      TREE_ROOT_HISTORY_LEN]
  rw [zeroTreeImage]
  simp only [fetchMerkleTreeState, if_neg hlen, h64]
  simp only [jsSlice_replicate_zero, bytes32ToDecimalString_replicate_zero]
  rw [List.map_const', List.length_range]
  simp [zeroState]

/-! ## Theorems for the read-side handlers -/

/-- C4 counterexample: with a single indexed commitment (token `sol`, leaf 0)
and a decodable tree account, the `/merkle/path` request for the present
leaf 0 is answered with the root, the next index and the token's full
commitments list — here of length 1, not a list of 26 (value, positionBit)
pairs, and carrying no position bits at all. -/
theorem merklePathHandler_returns_commitments_not_path :
    merklePathHandler singleLeafDb (some zeroTreeImage) (some "sol") (some 0) =
      .ok "0" 0 [(0, "7")] ∧
    ([(0, "7")] : List (Nat × String)).length ≠ MERKLE_DEPTH := by
  refine ⟨?_, by decide⟩
  simp only [merklePathHandler, fetchMerkleTreeState_zeroImage]
  decide

/-- C4 amended: for a valid leaf index over a decodable tree account, the
path operation answers a leaf index with no indexed commitment with the
distinct `leafNotFound` outcome (never a zeroed path), and a present leaf
with the tree root, next index and the full ordered `(leafIndex, commitment)`
list for the token, from which the client itself derives sibling values and
position bits. -/
theorem merklePathHandler_leaf_semantics (db : List Row) (account : Option Bytes)
    (tq : Option String) (li : Int) (st : MerkleTreeState)
    (h0 : 0 ≤ li) (h1 : li < 2 ^ MERKLE_DEPTH)
    (hst : fetchMerkleTreeState account = .ok st) :
    ((tokenCommitments db (sanitizeToken tq)).any (fun c => c.1 == li.toNat) = true →
      merklePathHandler db account tq (some li) =
        .ok st.root st.nextIndex (tokenCommitments db (sanitizeToken tq))) ∧
    ((tokenCommitments db (sanitizeToken tq)).any (fun c => c.1 == li.toNat) = false →
      merklePathHandler db account tq (some li) = .leafNotFound) := by
  have hcond : ¬(li < 0 ∨ (2 ^ MERKLE_DEPTH : Int) ≤ li) := by
    push_neg
    exact ⟨h0, h1⟩
  constructor <;> intro hleaf <;>
    simp [merklePathHandler, hcond, hst, hleaf]

theorem merklePathHandler_leaf_semantics_witness :
    ((tokenCommitments singleLeafDb (sanitizeToken (some "sol"))).any
        (fun c => c.1 == (0 : Int).toNat) = true →
      merklePathHandler singleLeafDb (some zeroTreeImage) (some "sol") (some 0) =
        .ok zeroState.root zeroState.nextIndex
          (tokenCommitments singleLeafDb (sanitizeToken (some "sol")))) ∧
    ((tokenCommitments singleLeafDb (sanitizeToken (some "sol"))).any
        (fun c => c.1 == (0 : Int).toNat) = false →
      merklePathHandler singleLeafDb (some zeroTreeImage) (some "sol") (some 0) =
        .leafNotFound) :=
  merklePathHandler_leaf_semantics singleLeafDb (some zeroTreeImage) (some "sol") 0
    zeroState (by decide) (by norm_num [MERKLE_DEPTH]) fetchMerkleTreeState_zeroImage

/-- C7 counterexample: the root read consults a TTL cache. With the default
TTL of 0, a state stored at time 100 expires at 100, and a read arriving at
time 100 still gets the cached value (the source evicts only when
`now > expires`), so the handler serves the cached root "1" without touching
the chain even though the on-chain account decodes to root "0". -/
theorem merkleRootHandler_serves_cached_value :
    (merkleRootHandler false staleCache (some zeroTreeImage) (some "sol") 100).1 =
      .ok staleState ∧
    fetchMerkleTreeState (some zeroTreeImage) = .ok zeroState ∧
    staleState.root ≠ zeroState.root := by
  refine ⟨?_, fetchMerkleTreeState_zeroImage, by decide⟩
  simp only [merkleRootHandler]
  decide

/-- C7 amended: the tree-state read goes through a TTL cache. On a cache hit
(an entry not yet strictly past its expiry) the cached state is served
unchanged and the chain is not consulted; only on a miss is the state
freshly decoded from the on-chain account image and then cached. -/
theorem merkleRootHandler_cache_semantics (dev : Bool) (cache : Cache MerkleTreeState)
    (account : Option Bytes) (tq : Option String) (now : Nat)
    (st d : MerkleTreeState) :
    (cacheGet cache ("root:" ++ sanitizeToken tq) now = some d →
      merkleRootHandler dev cache account tq now = (.ok d, cache)) ∧
    (cacheGet cache ("root:" ++ sanitizeToken tq) now = none →
      fetchMerkleTreeState account = .ok st →
      merkleRootHandler dev cache account tq now =
        (.ok st, cacheSet cache ("root:" ++ sanitizeToken tq) st now)) := by
  constructor
  · intro h
    simp [merkleRootHandler, h]
  · intro h hok
    simp [merkleRootHandler, h, hok]

theorem merkleRootHandler_cache_semantics_witness :
    merkleRootHandler false emptyRootCache (some zeroTreeImage) (some "sol") 0 =
      (.ok zeroState,
        cacheSet emptyRootCache ("root:" ++ sanitizeToken (some "sol")) zeroState 0) :=
  (merkleRootHandler_cache_semantics false emptyRootCache (some zeroTreeImage)
    (some "sol") 0 zeroState zeroState).2 (by decide) fetchMerkleTreeState_zeroImage

/-! ## Theorems for the Path Builder claim -/

theorem buildPathLoop_length (f : Nat → Option String) (n idx : Nat) :
    (buildPathLoop f n idx).1.length = n ∧ (buildPathLoop f n idx).2.length = n := by
  induction n generalizing idx with
  | zero => exact ⟨rfl, rfl⟩
  | succ n ih =>
    simp only [buildPathLoop, List.length_cons]
    exact ⟨congrArg (· + 1) (ih (idx / 2)).1, congrArg (· + 1) (ih (idx / 2)).2⟩

/-- Per-level characterisation of the second loop: at level `k` the position
bit is `(idx / 2^k) % 2` and the element is the value the lookup resolves for
sibling index `(idx / 2^k) ^ 1`, with "0" substituted on a miss. -/
theorem buildPathLoop_getD (f : Nat → Option String) (n idx level : Nat)
    (h : level < n) :
    (buildPathLoop f n idx).2.getD level 0 = idx / 2 ^ level % 2 ∧
    (buildPathLoop f n idx).1.getD level "" = (f (idx / 2 ^ level ^^^ 1)).getD "0" := by
  induction n generalizing idx level with
  | zero => omega
  | succ n ih =>
    cases level with
    | zero =>
      simp [buildPathLoop]
    | succ l =>
      have hdiv : idx / 2 / 2 ^ l = idx / 2 ^ (l + 1) := by
        rw [Nat.div_div_eq_div_mul, pow_succ, Nat.mul_comm]
      have := ih (idx / 2) l (by omega)
      rw [hdiv] at this
      simpa only [buildPathLoop, List.getD_cons_succ] using this

/-- The position bits do not depend on the sibling lookup. -/
theorem buildPathLoop_snd_congr (f g : Nat → Option String) (n idx : Nat) :
    (buildPathLoop f n idx).2 = (buildPathLoop g n idx).2 := by
  induction n generalizing idx with
  | zero => rfl
  | succ n ih =>
    simp only [buildPathLoop]
    rw [ih]

/-- Every level's sibling index is produced by the first loop. -/
theorem sibling_mem_buildSiblingIndices (n idx level : Nat) (h : level < n) :
    (idx / 2 ^ level ^^^ 1) ∈ buildSiblingIndices n idx := by
  induction n generalizing idx level with
  | zero => omega
  | succ n ih =>
    cases level with
    | zero =>
      simp [buildSiblingIndices]
    | succ l =>
      have hdiv : idx / 2 / 2 ^ l = idx / 2 ^ (l + 1) := by
        rw [Nat.div_div_eq_div_mul, pow_succ, Nat.mul_comm]
      have := ih (idx / 2) l (by omega)
      rw [hdiv] at this
      exact List.mem_cons_of_mem _ this

theorem find?_filter_eq (l : List Row) (p q : Row → Bool) :
    List.find? q (l.filter p) = List.find? (fun r => q r && p r) l := by
  induction l with
  | nil => rfl
  | cons a t ih =>
    by_cases hp : p a
    · by_cases hq : q a <;> simp [List.filter_cons, List.find?_cons, hp, hq, ih]
    · simp [List.filter_cons, List.find?_cons, hp, ih]

/-- For a sibling index the batched query's `in` filter is transparent: the
`byIndex` lookup agrees with the token-scoped index lookup. -/
theorem byIndexGet_eq_tokenCommitmentAt (db : List Row) (token : String)
    (sibs : List Nat) (i : Nat) (hi : i ∈ sibs) :
    byIndexGet db token sibs i = tokenCommitmentAt db token i := by
  rw [byIndexGet, tokenCommitmentAt,
    ← List.filter_reverse, ← List.filter_reverse, find?_filter_eq, find?_filter_eq]
  have hfun : (fun r : Row => (r.commitment_index == i) &&
      (r.token == token && sibs.contains r.commitment_index)) =
      (fun r : Row => (r.commitment_index == i) && (r.token == token)) := by
    funext r
    by_cases hq : r.commitment_index = i
    · simp [hq, hi]
    · have hb : (r.commitment_index == i) = false := beq_eq_false_iff_ne.mpr hq
      simp [hb]
  rw [hfun]

/-- C3: for every leaf index and the fixed depth 26, the Path Builder yields,
at each level k, position bit `(L / 2^k) % 2` and the sibling value the
token-scoped index holds at sibling index `(L / 2^k) XOR 1` — the halving
recurrence — substituting the zero placeholder "0" for a sibling index with
no indexed row; both lists have length 26, the sibling lookup is one batched
query whose `byIndex` map agrees with the token-scoped index at every
sibling index, and for L = 5 the first three sibling indices are [4, 3, 0]
with position bits [1, 0, 1]. -/
theorem getPathForLeafIndex_spec (db : List Row) (token : String) (L : Nat) :
    (getPathForLeafIndex db token L).1.length = MERKLE_DEPTH ∧
    (getPathForLeafIndex db token L).2.length = MERKLE_DEPTH ∧
    (∀ level, level < MERKLE_DEPTH →
      (getPathForLeafIndex db token L).2.getD level 0 = L / 2 ^ level % 2 ∧
      (getPathForLeafIndex db token L).1.getD level "" =
        (tokenCommitmentAt db token (L / 2 ^ level ^^^ 1)).getD "0") ∧
    (buildSiblingIndices MERKLE_DEPTH 5).take 3 = [4, 3, 0] ∧
    (getPathForLeafIndex db token 5).2.take 3 = [1, 0, 1] := by
  refine ⟨(buildPathLoop_length _ _ _).1, (buildPathLoop_length _ _ _).2,
    fun level hlev => ?_, by decide, ?_⟩
  · have hmem : (L / 2 ^ level ^^^ 1) ∈ buildSiblingIndices MERKLE_DEPTH L :=
      sibling_mem_buildSiblingIndices MERKLE_DEPTH L level hlev
    have hbyi := byIndexGet_eq_tokenCommitmentAt db token
      (buildSiblingIndices MERKLE_DEPTH L) (L / 2 ^ level ^^^ 1) hmem
    have hchar := buildPathLoop_getD
      (byIndexGet db token (buildSiblingIndices MERKLE_DEPTH L)) MERKLE_DEPTH L level hlev
    rw [hbyi] at hchar
    exact hchar
  · have hind : (getPathForLeafIndex db token 5).2 =
        (buildPathLoop (fun _ => none) MERKLE_DEPTH 5).2 :=
      buildPathLoop_snd_congr _ _ MERKLE_DEPTH 5
    rw [hind]
    decide

theorem getPathForLeafIndex_spec_witness :
    (getPathForLeafIndex pathExampleDb "sol" 5).2.getD 0 0 = 5 / 2 ^ 0 % 2 ∧
    (getPathForLeafIndex pathExampleDb "sol" 5).1.getD 0 "" =
      (tokenCommitmentAt pathExampleDb "sol" (5 / 2 ^ 0 ^^^ 1)).getD "0" ∧
    (getPathForLeafIndex pathExampleDb "sol" 5).1.getD 1 "" =
      (tokenCommitmentAt pathExampleDb "sol" (5 / 2 ^ 1 ^^^ 1)).getD "0" ∧
    (getPathForLeafIndex pathExampleDb "sol" 5).1.getD 2 "" =
      (tokenCommitmentAt pathExampleDb "sol" (5 / 2 ^ 2 ^^^ 1)).getD "0" ∧
    (tokenCommitmentAt pathExampleDb "sol" 4).getD "0" = "0" ∧
    (tokenCommitmentAt pathExampleDb "sol" 3).getD "0" = "0" ∧
    (tokenCommitmentAt pathExampleDb "sol" 0).getD "0" = "11" :=
  ⟨((getPathForLeafIndex_spec pathExampleDb "sol" 5).2.2.1 0 (by decide)).1,
   ((getPathForLeafIndex_spec pathExampleDb "sol" 5).2.2.1 0 (by decide)).2,
   ((getPathForLeafIndex_spec pathExampleDb "sol" 5).2.2.1 1 (by decide)).2,
   ((getPathForLeafIndex_spec pathExampleDb "sol" 5).2.2.1 2 (by decide)).2,
   by decide, by decide, by decide⟩

end ShadeApi
